import Mathlib

/-!
Verification development for the Empirical signal/action dispatch core
(`Signal.hpp`): `SignalKey`, `SignalBase`, the `Signal<void(ARGS...)>` and
`Signal<RETURN(ARGS...)>` specializations, and the type-erased `BaseTrigger`
path.  Machine `uint32_t` values are modelled as `Nat` reduced mod `2^32`
at the points where the source constructs them.  Handlers of a channel of
argument tuple type `a` and per-handler return type `r` are modelled as Lean
functions `a -> r`; handlers of a `void` channel, whose only observable
behaviour is their side effect, are modelled as explicit state transformers
`a -> st -> st`.  Fatal `emp_assert` failures are modelled as `Option.none`.
-/

namespace Emp

variable {α ρ σ V : Type}

/-- Modelled from the spec: `TypeDescriptor` (spec section 4.1); the source
file `meta/TypeID.hpp` is not under `src/`.  A process-wide comparable
identifier for a type: a base identity plus a reference flag, with
`GetRemoveReferenceTypeID` producing the reference-reduced form. -/
structure TypeID where
  tid : Nat
  is_ref : Bool
deriving DecidableEq, Repr

/-- Modelled from the spec: the "strip reference" reduction of a
`TypeDescriptor` (spec section 4.1); on a non-reference descriptor it is the
identity. -/
def TypeID.GetRemoveReferenceTypeID (t : TypeID) : TypeID :=
  { t with is_ref := false }

/-- The modulus of the `uint32_t` fields used by `SignalKey` and
`SignalBase`. -/
def u32 : Nat := 2 ^ 32

/-- `SignalKey` (Signal.hpp lines 31-77): a pair of a signal id and a key id,
both `uint32_t`. -/
structure SignalKey where
  signal_id : Nat
  key_id : Nat
deriving DecidableEq, Repr

/-- The `SignalKey` constructor `SignalKey(uint32_t _kid=0, uint32_t _sid=0)
: signal_id(_sid), key_id(_kid)` (line 45): note the first parameter is the
key id and the second the signal id. -/
def SignalKey.create (kid : Nat) (sid : Nat) : SignalKey :=
  { signal_id := sid % u32, key_id := kid % u32 }

/-- `SignalKey::Compare` (lines 37-43): lexicographic comparison, signal id
first, then key id. -/
def SignalKey.Compare (a b : SignalKey) : Int :=
  if a.signal_id < b.signal_id then -1
  else if b.signal_id < a.signal_id then 1
  else if a.key_id < b.key_id then -1
  else if b.key_id < a.key_id then 1
  else 0

/-- `SignalKey::operator<` (line 56): `Compare(in) < 0`. -/
def SignalKey.lt (a b : SignalKey) : Bool :=
  SignalKey.Compare a b < 0

/-- `SignalKey::IsActive` (line 68): `key_id > 0`. -/
def SignalKey.IsActive (k : SignalKey) : Bool :=
  decide (0 < k.key_id)

/-- `SignalKey::GetID` (line 62): the `key_id` field. -/
def SignalKey.GetID (k : SignalKey) : Nat :=
  k.key_id

/-- `SignalKey::GetSignalID` (line 65): the `signal_id` field. -/
def SignalKey.GetSignalID (k : SignalKey) : Nat :=
  k.signal_id

/-- Lookup in `std::map<SignalKey, size_t>`, modelled on an association
list. -/
def mapLookup : List (SignalKey × Nat) → SignalKey → Option Nat
  | [], _ => none
  | e :: rest, k => if k = e.1 then some e.2 else mapLookup rest k

/-- Keyed insertion-or-assignment (`std::map::operator[]` followed by `=`),
keeping the association list sorted by the `SignalKey` order. -/
def mapSet : List (SignalKey × Nat) → SignalKey → Nat → List (SignalKey × Nat)
  | [], k, v => [(k, v)]
  | e :: rest, k, v =>
    if SignalKey.lt k e.1 then (k, v) :: e :: rest
    else if k = e.1 then (k, v) :: rest
    else e :: mapSet rest k v

/-- `std::map::erase(key)`: drop the (unique) entry whose key matches. -/
def mapErase : List (SignalKey × Nat) → SignalKey → List (SignalKey × Nat)
  | [], _ => []
  | e :: rest, k => if k = e.1 then rest else e :: mapErase rest k

/-- The keys of the map, in storage order. -/
def mapKeys (m : List (SignalKey × Nat)) : List SignalKey :=
  m.map Prod.fst

/-- The multiset of stored positions of the map. -/
def mapVals (m : List (SignalKey × Nat)) : Multiset Nat :=
  ((m.map Prod.snd : List Nat) : Multiset Nat)

/-- Modelled from the spec: `HandlerSet` append (`FunctionSet::Add`; the
source file `functional/FunctionSet.hpp` is not under `src/`).  Appends one
callable at the end of the ordered sequence. -/
def FunctionSet.Add (funs : List (α → ρ)) (f : α → ρ) : List (α → ρ) :=
  funs ++ [f]

/-- Modelled from the spec: `HandlerSet` positional removal with compaction
(`FunctionSet::Remove(pos)`; `FunctionSet.hpp` is not under `src/`). -/
def FunctionSet.Remove (funs : List (α → ρ)) (pos : Nat) : List (α → ρ) :=
  funs.eraseIdx pos

/-- Modelled from the spec: `HandlerSet` invocation for a non-void signature
(`FunctionSet::Run`; `FunctionSet.hpp` is not under `src/`).  Runs every
handler in order on the same arguments and collects exactly one result per
handler, in handler order. -/
def FunctionSet.Run (funs : List (α → ρ)) (args : α) : List ρ :=
  funs.map (fun f => f args)

/-- Modelled from the spec: `HandlerSet` invocation for a void signature
(`FunctionSet::Run`; `FunctionSet.hpp` is not under `src/`).  Runs every
handler in order on the same arguments; the handler side effects are
modelled as transformers of an explicit ambient state. -/
def FunctionSet.RunVoid (funs : List (α → σ → σ)) (args : α) (st : σ) : σ :=
  funs.foldl (fun acc f => f args acc) st

/-- The state of one signal channel: the `SignalBase` fields (Signal.hpp
lines 109-116) together with the `actions` member of the derived class.
Registries (`SignalManager_Base *`) are identified by `Nat` handles;
`prime_manager == nullptr` is `Option.none`. -/
structure Signal (α ρ : Type) where
  name : String
  signal_id : Nat
  next_link_id : Nat
  link_key_map : List (SignalKey × Nat)
  managers : List Nat
  prime_manager : Option Nat
  arg_type_ids : List TypeID
  return_type_id : TypeID
  actions : List (α → ρ)

/-- The `SignalBase` constructor (lines 122-128) as invoked by the derived
`Signal` constructors with no manager: `signal_id` and `next_link_id` start
at 0, the key map and manager list are empty, `prime_manager` is null, and
the argument/return descriptors are fixed from the static signature. -/
def Signal.mkSignal (n : String) (ret : TypeID) (args : List TypeID) : Signal α ρ :=
  { name := n, signal_id := 0, next_link_id := 0, link_key_map := [],
    managers := [], prime_manager := none,
    arg_type_ids := args, return_type_id := ret, actions := [] }

/-- `SignalBase::NextSignalKey` (line 119):
`return SignalKey(signal_id, ++next_link_id);` — pre-increments the link
counter, then calls the `SignalKey(_kid, _sid)` constructor with
`signal_id` in the first position and the incremented counter in the
second. -/
def Signal.NextSignalKey (s : Signal α ρ) : SignalKey × Signal α ρ :=
  let nl := (s.next_link_id + 1) % u32
  (SignalKey.create s.signal_id nl, { s with next_link_id := nl })

/-- `Signal<RETURN(ARGS...)>::Trigger` (line 304): run the whole action set,
returning one result per action. -/
def Signal.Trigger (s : Signal α ρ) (args : α) : List ρ :=
  FunctionSet.Run s.actions args

/-- `Signal<void(ARGS...)>::Trigger` (line 203): run the whole action set for
its side effects. -/
def Signal.TriggerVoid (s : Signal α (σ → σ)) (args : α) (st : σ) : σ :=
  FunctionSet.RunVoid s.actions args st

/-- `Signal::AddAction(const std::function &)` (lines 206-211 / 307-312):
allocate the next key, map it to the current action count, append the
action, and return the key. -/
def Signal.AddAction (s : Signal α ρ) (in_fun : α → ρ) : SignalKey × Signal α ρ :=
  let p := s.NextSignalKey
  (p.1, { p.2 with
    link_key_map := mapSet p.2.link_key_map p.1 p.2.actions.length,
    actions := FunctionSet.Add p.2.actions in_fun })

/-- The padding lambda `expand_fun` (lines 232-233 / 332-333): accept the
full argument list and forward only the leading `m` arguments (the parameters the handler declares) to `in_fun`, discarding the trailing extras. -/
def expand_fun (m : Nat) (in_fun : List V → ρ) : List V → ρ :=
  fun args => in_fun (args.take m)

/-- `Signal::AddAction` for a handler with too few parameters (lines 226-236
/ 326-336): same bookkeeping as the exact-signature overload, but the stored
action is the synthesized `expand_fun` adapter; `m` is the number of
parameters the handler declares (`sizeof...(FUN_ARGS)`). -/
def Signal.AddActionPadded (s : Signal (List V) ρ) (m : Nat) (in_fun : List V → ρ) :
    SignalKey × Signal (List V) ρ :=
  let p := s.NextSignalKey
  (p.1, { p.2 with
    link_key_map := mapSet p.2.link_key_map p.1 p.2.actions.length,
    actions := FunctionSet.Add p.2.actions (expand_fun m in_fun) })

/-- `Signal::Remove(SignalKey)` (lines 257-270 / 356-369): assert the key is
present (fatal otherwise, modelled as `none`), erase the action at the
mapped position, erase the key, and decrement every other stored position
greater than the removed one. -/
def Signal.Remove (s : Signal α ρ) (key : SignalKey) : Option (Signal α ρ) :=
  match mapLookup s.link_key_map key with
  | none => none
  | some pos =>
    some { s with
      actions := FunctionSet.Remove s.actions pos,
      link_key_map := (mapErase s.link_key_map key).map
        (fun x => if x.2 > pos then (x.1, x.2 - 1) else x) }

/-- `SignalBase::Clear` (lines 167-170), with explicit fuel standing in for
the `while (link_key_map.size())` loop: as long as keys remain, remove the
first one via the per-key `Remove` path.  A fuel of the initial map size is
always enough, since each successful `Remove` shrinks the map by one. -/
def Signal.ClearFuel : Nat → Signal α ρ → Signal α ρ
  | 0, s => s
  | fuel + 1, s =>
    match s.link_key_map with
    | [] => s
    | e :: _ =>
      match s.Remove e.1 with
      | some s1 => Signal.ClearFuel fuel s1
      | none => s

/-- `SignalBase::Clear` (lines 167-170). -/
def Signal.Clear (s : Signal α ρ) : Signal α ρ :=
  Signal.ClearFuel s.link_key_map.length s

/-- The notifications emitted by `SignalBase::~SignalBase` (lines 135-138):
`for (auto * m : managers) if (m != prime_manager) m->NotifyDestruct(this);`
— the list of managers receiving `NotifyDestruct`, in order. -/
def Signal.destructNotifications (s : Signal α ρ) : List Nat :=
  s.managers.filter (fun m => some m ≠ s.prime_manager)

/-- Modelled from the spec: the `Action` wrapper (spec section 4.5; the
source file `Action.hpp` is not under `src/`).  A named callable bundled
with its declared exact signature tag (argument and return descriptors). -/
structure ActionW (α ρ : Type) where
  sig_args : List TypeID
  sig_ret : TypeID
  act_fun : α → ρ
  name : String

/-- The `dynamic_cast<Action<fun_t>*>` performed by `AddAction(ActionBase&)`
and `TestMatch` (lines 215, 221, 315, 321): succeeds, yielding the wrapped
callable, exactly when the declared signature of the wrapper equals the signature of the channel. -/
def dynCastAction (chan_args : List TypeID) (chan_ret : TypeID) (a : ActionW α ρ) :
    Option (α → ρ) :=
  if a.sig_args = chan_args ∧ a.sig_ret = chan_ret then some a.act_fun else none

/-- `Signal::AddAction(ActionBase &)` (lines 214-218 / 314-318): downcast the
wrapper; a failed cast is a fatal assertion (`none`), a successful one
unwraps `GetFun()` and delegates to the raw-handler `AddAction`. -/
def Signal.AddActionObj (s : Signal α ρ) (a : ActionW α ρ) :
    Option (SignalKey × Signal α ρ) :=
  match dynCastAction s.arg_type_ids s.return_type_id a with
  | some f => some (s.AddAction f)
  | none => none

/-- `Signal::TestMatch(ActionBase &)` (lines 220-222 / 320-322): report
whether the downcast would succeed, mutating nothing. -/
def Signal.TestMatch (s : Signal α ρ) (a : ActionW α ρ) : Bool :=
  (dynCastAction s.arg_type_ids s.return_type_id a).isSome

/-- The per-position argument-descriptor loop of `BaseTrigger` (lines
386-392 and 411-417): position by position, the declared descriptor must
equal the supplied one, or equal the reference-reduced form of the supplied one;
a length mismatch fails. -/
def argsMatch : List TypeID → List TypeID → Bool
  | [], [] => true
  | [], _ :: _ => false
  | _ :: _, [] => false
  | d :: ds, p :: ps =>
    (d == p || d == p.GetRemoveReferenceTypeID) && argsMatch ds ps

/-- `SignalBase::BaseTrigger<ARGS...>` for void signals (lines 378-395):
check the supplied argument-descriptor count against the declared count,
then run the descriptor loop, then downcast and trigger; a failed
`emp_assert` is modelled as `none`. -/
def Signal.BaseTriggerV (s : Signal α (σ → σ)) (arg_types : List TypeID)
    (args : α) (st : σ) : Option σ :=
  if s.arg_type_ids.length == arg_types.length then
    if argsMatch s.arg_type_ids arg_types then
      some (s.TriggerVoid args st)
    else none
  else none

/-- `SignalBase::BaseTrigger<RETURN, ARGS...>` (lines 397-421): check the
supplied return descriptor against the declared one, then the argument
count, then the descriptor loop, then downcast and trigger; a failed
`emp_assert` is modelled as `none`. -/
def Signal.BaseTriggerR (s : Signal α ρ) (ret_type : TypeID)
    (arg_types : List TypeID) (args : α) : Option (List ρ) :=
  if s.return_type_id == ret_type then
    if s.arg_type_ids.length == arg_types.length then
      if argsMatch s.arg_type_ids arg_types then
        some (s.Trigger args)
      else none
    else none
  else none

/-- The per-position relation that `BaseTrigger` actually enforces, stated
abstractly: the declared descriptor equals the supplied one, or equals the
reference-reduced form of the supplied one. -/
def argOk (d p : TypeID) : Prop :=
  d = p ∨ d = p.GetRemoveReferenceTypeID

/-- Transcription of the claim C2 wording for one argument position: the
supplied descriptor equals the declared one, or equals the reference-reduced
form of the declared one.  (This reduces the declared descriptor; the source
reduces the supplied one.) -/
def specC2ArgOk (declared supplied : TypeID) : Bool :=
  supplied == declared || supplied == declared.GetRemoveReferenceTypeID

/-- Transcription of the claim C2 wording for the whole argument list. -/
def specC2ArgsOk : List TypeID → List TypeID → Bool
  | [], [] => true
  | [], _ :: _ => false
  | _ :: _, [] => false
  | d :: ds, p :: ps => specC2ArgOk d p && specC2ArgsOk ds ps

/-- Attach a list of handlers in order via `AddAction`. -/
def Signal.attachAll (s : Signal α ρ) (hs : List (α → ρ)) : Signal α ρ :=
  hs.foldl (fun st h => (st.AddAction h).2) s

/-- Remove a list of keys one by one via the per-key `Remove` path (a failed
removal leaves the state unchanged). -/
def Signal.foldRemove (s : Signal α ρ) (ks : List SignalKey) : Signal α ρ :=
  ks.foldl (fun st k => (st.Remove k).getD st) s

/-- The channel bookkeeping invariant: the keys of `link_key_map` are
distinct and the stored positions are exactly `0 .. actions.length - 1`,
one key per position (dense and injective). -/
def Signal.Good (s : Signal α ρ) : Prop :=
  (mapKeys s.link_key_map).Nodup ∧
  mapVals s.link_key_map = Multiset.range s.actions.length

instance (s : Signal α ρ) : Decidable s.Good := by
  unfold Signal.Good
  infer_instance

/-- What `Remove(key)` must do when `key` is registered at position `p`: it
succeeds, the handler at position `p` is removed with the remaining
handlers kept in their original relative order, the key itself is erased,
the stored position of every other key is decremented exactly when it was
greater than `p`, and the key map stays dense and injective. -/
def Signal.RemoveSpec (s : Signal α ρ) (k : SignalKey) (p : Nat) : Prop :=
  ∃ s' : Signal α ρ, s.Remove k = some s' ∧
    s'.actions = FunctionSet.Remove s.actions p ∧
    s'.actions.Sublist s.actions ∧
    s'.actions.length + 1 = s.actions.length ∧
    mapLookup s'.link_key_map k = none ∧
    (∀ k' v, k' ≠ k → mapLookup s.link_key_map k' = some v →
      mapLookup s'.link_key_map k' = some (if v > p then v - 1 else v)) ∧
    s'.Good

/-- What `AddAction` must do: the returned key is mapped to the handler
count before the call, the handler is appended at the end (so it is invoked
last), the handler count grows by exactly one, every previously registered
key keeps its position, and the key map stays dense and injective. -/
def Signal.AddSpec (s : Signal α ρ) (f : α → ρ) : Prop :=
  mapLookup (s.AddAction f).2.link_key_map (s.AddAction f).1 = some s.actions.length ∧
  (s.AddAction f).2.actions = s.actions ++ [f] ∧
  (s.AddAction f).2.actions.length = s.actions.length + 1 ∧
  (∀ k', k' ≠ (s.AddAction f).1 →
    mapLookup (s.AddAction f).2.link_key_map k' = mapLookup s.link_key_map k') ∧
  (s.AddAction f).2.Good

/-- The concrete three-handler channel used to witness the C3 theorem. -/
def exC3 : Signal Nat Nat :=
  ((((Signal.mkSignal "c3" ⟨7, false⟩ [⟨5, false⟩]).AddAction
    (fun x => x + 1)).2.AddAction (fun x => x * 2)).2.AddAction (fun x => x)).2

/-- The concrete two-handler channel used to witness the C8 theorem. -/
def exC8 : Signal Nat Nat :=
  (((Signal.mkSignal "c8" ⟨7, false⟩ [⟨5, false⟩]).AddAction
    (fun x => x + 1)).2.AddAction (fun x => x * 2)).2

/-- The concrete two-handler channel used to witness the C10 theorem. -/
def exC10 : Signal Nat Nat :=
  (((Signal.mkSignal "c10" ⟨7, false⟩ [⟨5, false⟩]).AddAction
    (fun x => x + 1)).2.AddAction (fun x => x * 2)).2

/-- The handler attached to `exC10` in the C10 witness. -/
def exC10f : Nat → Nat :=
  fun x => x + 5

/-- The concrete channel used to exhibit the `SignalKey` field swap: a
default-constructed channel, whose `signal_id` is 0. -/
def exC4 : Signal Nat Nat :=
  Signal.mkSignal "c4" ⟨1, false⟩ [⟨2, false⟩]

/-- The concrete channel used to witness the destructor-notification
theorem: three tracked registries, the middle one designated primary. -/
def exC9 : Signal Nat Nat :=
  { Signal.mkSignal "c9" ⟨1, false⟩ [] with
    managers := [10, 11, 12], prime_manager := some 11 }

/-- The concrete channel used for the C2 counterexample: one declared
non-reference argument descriptor and one identity handler. -/
def exC2 : Signal Nat Nat :=
  ((Signal.mkSignal "c2" ⟨7, false⟩ [⟨5, false⟩]).AddAction (fun x => x)).2

/-- The concrete non-void channel used to witness the C6 theorem. -/
def exC6R : Signal Nat Nat :=
  (((Signal.mkSignal "c6r" ⟨7, false⟩ [⟨5, false⟩]).AddAction
    (fun x => x + 1)).2.AddAction (fun x => x * 2)).2

/-- The concrete void channel used to witness the C6 theorem; its handler
appends its argument to the ambient log. -/
def exC6V : Signal Nat (List Nat → List Nat) :=
  ((Signal.mkSignal "c6v" ⟨0, false⟩ [⟨5, false⟩]).AddAction
    (fun x log => log ++ [x])).2

/-- The concrete two-argument channel used to witness the C5 theorem. -/
def exC5 : Signal (List Nat) Nat :=
  Signal.mkSignal "c5" ⟨7, false⟩ [⟨5, false⟩, ⟨6, false⟩]

/-- The concrete one-parameter handler attached to `exC5`. -/
def exC5f : List Nat → Nat :=
  fun l => l.headD 0 * 10

theorem attachAll_actions (hs : List (α → ρ)) :
    ∀ s : Signal α ρ, (s.attachAll hs).actions = s.actions ++ hs := by
  induction hs with
  | nil => intro s; simp [Signal.attachAll]
  | cons h t ih =>
    intro s
    have : (s.attachAll (h :: t)) = ((s.AddAction h).2.attachAll t) := rfl
    rw [this, ih]
    simp [Signal.AddAction, Signal.NextSignalKey, FunctionSet.Add]

/-- C1: for every channel and every sequence of handlers attached in order,
`Trigger` invokes every registered handler in ascending position order with
identical arguments; for a non-void channel the returned sequence has
exactly one entry per handler, in attachment order, equal to
`[h1 args, h2 args, ..., hn args]`; for a void channel the handler state
effects are applied first-to-last, each receiving the same arguments. -/
theorem trigger_runs_handlers_in_order (nm : String) (rt : TypeID)
    (ats : List TypeID) (hs : List (α → ρ)) (a : α)
    (vs : List (α → σ → σ)) (b : α) (st : σ) :
    ((Signal.mkSignal nm rt ats).attachAll hs).Trigger a = hs.map (fun h => h a) ∧
    ((Signal.mkSignal nm rt ats).attachAll vs).TriggerVoid b st =
      vs.foldl (fun acc h => h b acc) st := by
  constructor
  · rw [Signal.Trigger, FunctionSet.Run, attachAll_actions]
    simp [Signal.mkSignal]
  · rw [Signal.TriggerVoid, FunctionSet.RunVoid, attachAll_actions]
    simp [Signal.mkSignal]

/-- C4 (code bug evaluation): on a default-constructed channel, the keys
returned by two successive `AddAction` calls both report `IsActive() =
false` and `GetID() = 0`, while the per-channel counter values 1 and 2 land
in the `signal_id` field instead: `NextSignalKey` passes
`(signal_id, ++next_link_id)` to the constructor `SignalKey(_kid, _sid)`,
whose parameters are in the opposite order. -/
theorem signalkey_swapped_fields_eval :
    (exC4.AddAction (fun x => x + 1)).1.IsActive = false ∧
    ((exC4.AddAction (fun x => x + 1)).2.AddAction (fun x => x * 2)).1.IsActive = false ∧
    (exC4.AddAction (fun x => x + 1)).1.GetID = 0 ∧
    ((exC4.AddAction (fun x => x + 1)).2.AddAction (fun x => x * 2)).1.GetID = 0 ∧
    (exC4.AddAction (fun x => x + 1)).1.GetSignalID = 1 ∧
    ((exC4.AddAction (fun x => x + 1)).2.AddAction (fun x => x * 2)).1.GetSignalID = 2 ∧
    SignalKey.create 0 0 ≠ (exC4.AddAction (fun x => x + 1)).1 := by
  decide

/-- C7: attaching an `Action` wrapper runtime-checks the declared signature
of the wrapper against the exact signature of the channel; `TestMatch` reports
exactly whether they match (it is a pure function of the channel and the
wrapper, so it mutates neither), and `AddAction(ActionBase&)` registers
nothing on a mismatch (fatal assertion, modelled `none`) and on a match
unwraps the callable and delegates to the raw-handler attach path. -/
theorem action_wrapper_attach_checked (s : Signal α ρ) (a : ActionW α ρ) :
    (s.TestMatch a = true ↔
      (a.sig_args = s.arg_type_ids ∧ a.sig_ret = s.return_type_id)) ∧
    s.AddActionObj a =
      (if s.TestMatch a = true then some (s.AddAction a.act_fun) else none) := by
  by_cases h : a.sig_args = s.arg_type_ids ∧ a.sig_ret = s.return_type_id
  · simp [Signal.TestMatch, Signal.AddActionObj, dynCastAction, h]
  · simp [Signal.TestMatch, Signal.AddActionObj, dynCastAction, h]

/-- C9: on destruction, `NotifyDestruct` goes exactly once to every tracked
registry other than the designated primary, never to the primary, and the
emitted notifications depend on nothing but the tracked-registry list and
the primary designation. -/
theorem destructor_notifies_nonprime (s : Signal α ρ) (hnd : s.managers.Nodup) :
    (∀ m, m ∈ s.managers → some m ≠ s.prime_manager →
      s.destructNotifications.count m = 1) ∧
    (∀ m, some m = s.prime_manager → s.destructNotifications.count m = 0) ∧
    (∀ t : Signal α ρ, t.managers = s.managers →
      t.prime_manager = s.prime_manager →
      t.destructNotifications = s.destructNotifications) := by
  refine ⟨?_, ?_, ?_⟩
  · intro m hm hne
    apply List.count_eq_one_of_mem
    · exact hnd.filter _
    · simp [Signal.destructNotifications, List.mem_filter, hm, hne]
  · intro m hp
    apply List.count_eq_zero_of_not_mem
    simp [Signal.destructNotifications, List.mem_filter, hp]
  · intro t h1 h2
    simp [Signal.destructNotifications, h1, h2]

theorem destructor_notifies_nonprime_witness :
    exC9.destructNotifications.count 10 = 1 ∧
    exC9.destructNotifications.count 11 = 0 ∧
    exC9.destructNotifications.count 12 = 1 :=
  ⟨(destructor_notifies_nonprime exC9 (by decide)).1 10 (by decide) (by decide),
   (destructor_notifies_nonprime exC9 (by decide)).2.1 11 rfl,
   (destructor_notifies_nonprime exC9 (by decide)).1 12 (by decide) (by decide)⟩

theorem argsMatch_iff :
    ∀ ds ps : List TypeID, argsMatch ds ps = true ↔ List.Forall₂ argOk ds ps := by
  intro ds
  induction ds with
  | nil =>
    intro ps
    cases ps with
    | nil => exact iff_of_true rfl List.Forall₂.nil
    | cons p ps =>
      constructor
      · intro h
        simp [argsMatch] at h
      · intro h
        cases h
  | cons d ds ih =>
    intro ps
    cases ps with
    | nil =>
      constructor
      · intro h
        simp [argsMatch] at h
      · intro h
        cases h
    | cons p ps =>
      simp only [argsMatch, Bool.and_eq_true, Bool.or_eq_true, beq_iff_eq, ih ps]
      constructor
      · rintro ⟨h1, h2⟩
        exact List.Forall₂.cons h1 h2
      · intro h
        cases h with
        | cons h1 h2 => exact ⟨h1, h2⟩

theorem argsMatch_self (ds : List TypeID) : argsMatch ds ds = true := by
  induction ds with
  | nil => rfl
  | cons d t ih => simp [argsMatch, ih]

/-- C2 (amended): before downcasting, `BaseTrigger` verifies that (i) the
supplied argument-descriptor count equals the declared count, (ii) in each
position the declared descriptor equals the supplied one or equals the
reference-reduced form of the supplied one (the reduction applies to the
supplied descriptor, not the declared one), and (iii) for the typed-return
overload the supplied return descriptor equals the declared one; exactly
when all checks pass the call proceeds to the downcast trigger, and any
mismatch is a fatal assertion failure (the call does not silently
proceed).  `List.Forall₂` carries the count condition (i). -/
theorem basetrigger_typecheck_gate (s : Signal α ρ) (t : Signal α (σ → σ))
    (rt : TypeID) (ats bts : List TypeID) (a : α) (b : α) (st : σ) :
    (s.BaseTriggerR rt ats a = some (s.Trigger a) ↔
      (s.return_type_id = rt ∧ List.Forall₂ argOk s.arg_type_ids ats)) ∧
    (s.BaseTriggerR rt ats a = none ↔
      ¬ (s.return_type_id = rt ∧ List.Forall₂ argOk s.arg_type_ids ats)) ∧
    (t.BaseTriggerV bts b st = some (t.TriggerVoid b st) ↔
      List.Forall₂ argOk t.arg_type_ids bts) ∧
    (t.BaseTriggerV bts b st = none ↔
      ¬ List.Forall₂ argOk t.arg_type_ids bts) := by
  have mainR : (s.return_type_id = rt ∧ List.Forall₂ argOk s.arg_type_ids ats) →
      s.BaseTriggerR rt ats a = some (s.Trigger a) := by
    rintro ⟨h1, h3⟩
    simp [Signal.BaseTriggerR, h1, h3.length_eq, (argsMatch_iff _ _).2 h3]
  have noneR : ¬ (s.return_type_id = rt ∧ List.Forall₂ argOk s.arg_type_ids ats) →
      s.BaseTriggerR rt ats a = none := by
    intro hC
    rw [Signal.BaseTriggerR]
    by_cases h1 : s.return_type_id = rt
    · by_cases h2 : s.arg_type_ids.length = ats.length
      · have h3 : ¬ List.Forall₂ argOk s.arg_type_ids ats := fun hf => hC ⟨h1, hf⟩
        have hm : argsMatch s.arg_type_ids ats = false :=
          Bool.eq_false_iff.2 fun hmm => h3 ((argsMatch_iff _ _).1 hmm)
        simp [h1, h2, hm]
      · simp [beq_iff_eq, h1, h2]
    · simp [beq_iff_eq, h1]
  have mainV : List.Forall₂ argOk t.arg_type_ids bts →
      t.BaseTriggerV bts b st = some (t.TriggerVoid b st) := by
    intro h3
    simp [Signal.BaseTriggerV, h3.length_eq, (argsMatch_iff _ _).2 h3]
  have noneV : ¬ List.Forall₂ argOk t.arg_type_ids bts →
      t.BaseTriggerV bts b st = none := by
    intro h3
    rw [Signal.BaseTriggerV]
    by_cases h2 : t.arg_type_ids.length = bts.length
    · have hm : argsMatch t.arg_type_ids bts = false :=
        Bool.eq_false_iff.2 fun hmm => h3 ((argsMatch_iff _ _).1 hmm)
      simp [h2, hm]
    · simp [beq_iff_eq, h2]
  by_cases hR : s.return_type_id = rt ∧ List.Forall₂ argOk s.arg_type_ids ats <;>
    by_cases hV : List.Forall₂ argOk t.arg_type_ids bts
  · exact ⟨by simp [mainR hR, hR], by simp [mainR hR, hR], by simp [mainV hV, hV],
      by simp [mainV hV, hV]⟩
  · exact ⟨by simp [mainR hR, hR], by simp [mainR hR, hR], by simp [noneV hV, hV],
      by simp [noneV hV, hV]⟩
  · exact ⟨by simp [noneR hR, hR], by simp [noneR hR, hR], by simp [mainV hV, hV],
      by simp [mainV hV, hV]⟩
  · exact ⟨by simp [noneR hR, hR], by simp [noneR hR, hR], by simp [noneV hV, hV],
      by simp [noneV hV, hV]⟩

/-- C2 (counterexample to the claim as stated): with declared argument
descriptor the non-reference type `⟨5, false⟩` and supplied descriptor its
reference form `⟨5, true⟩`, the verification condition of the claim — the
supplied descriptor equals the declared one or equals the reference-reduced
form of the declared one — fails, so per the claim the call must be a fatal
assertion failure; but the check in the source reduces the supplied descriptor
instead, accepts, and the call silently proceeds to the trigger. -/
theorem basetrigger_claim_direction_cex :
    specC2ArgsOk [⟨5, false⟩] [⟨5, true⟩] = false ∧
    exC2.BaseTriggerR ⟨7, false⟩ [⟨5, true⟩] 3 = some [3] := by
  constructor
  · decide
  · decide

/-- C6: when the supplied runtime descriptors equal the declared
descriptors, the type-erased `BaseTrigger` path succeeds and produces
exactly the result (and, for void channels, exactly the handler effects) of
the statically-typed `Trigger` path on the same channel and arguments. -/
theorem basetrigger_matches_typed_trigger (s : Signal α ρ) (t : Signal α (σ → σ))
    (rt : TypeID) (ats bts : List TypeID) (a : α) (b : α) (st : σ)
    (hr : rt = s.return_type_id) (ha : ats = s.arg_type_ids)
    (hb : bts = t.arg_type_ids) :
    s.BaseTriggerR rt ats a = some (s.Trigger a) ∧
    t.BaseTriggerV bts b st = some (t.TriggerVoid b st) := by
  subst hr ha hb
  constructor
  · simp [Signal.BaseTriggerR, argsMatch_self]
  · simp [Signal.BaseTriggerV, argsMatch_self]

theorem basetrigger_matches_typed_trigger_witness :
    exC6R.BaseTriggerR ⟨7, false⟩ [⟨5, false⟩] 5 = some (exC6R.Trigger 5) ∧
    exC6V.BaseTriggerV [⟨5, false⟩] 3 [] = some (exC6V.TriggerVoid 3 []) :=
  basetrigger_matches_typed_trigger exC6R exC6V ⟨7, false⟩ [⟨5, false⟩]
    [⟨5, false⟩] 5 3 [] rfl rfl rfl

/-- C5: attaching a handler that declares only the first `m` of the
declared `m + k` channel parameters succeeds, and triggering with `m + k`
arguments calls that handler with exactly the first `m` of them — the
leading arguments are forwarded unchanged (they are the prefix of the full
argument list) and the trailing `k` are discarded. -/
theorem addaction_padding_drops_trailing (s : Signal (List V) ρ) (m k : Nat)
    (f : List V → ρ) (args : List V) (hlen : args.length = m + k) :
    (s.AddActionPadded m f).2.Trigger args = s.Trigger args ++ [f (args.take m)] ∧
    (args.take m).length = m ∧
    args.take m ++ args.drop m = args := by
  refine ⟨?_, ?_, ?_⟩
  · simp [Signal.AddActionPadded, Signal.NextSignalKey, Signal.Trigger,
      FunctionSet.Add, FunctionSet.Run, expand_fun]
  · rw [List.length_take, hlen]
    omega
  · exact List.take_append_drop m args

theorem addaction_padding_drops_trailing_witness :
    ((exC5.AddActionPadded 1 exC5f).2.Trigger [7, 9] =
      exC5.Trigger [7, 9] ++ [exC5f ([7, 9].take 1)] ∧
    ([7, 9].take 1).length = 1 ∧
    [7, 9].take 1 ++ [7, 9].drop 1 = [7, 9]) :=
  addaction_padding_drops_trailing exC5 1 1 exC5f [7, 9] (by decide)

theorem mapLookup_eq_none_of_not_mem {m : List (SignalKey × Nat)} {k : SignalKey}
    (h : k ∉ mapKeys m) : mapLookup m k = none := by
  induction m with
  | nil => rfl
  | cons e rest ih =>
    have hne : k ≠ e.1 := by
      intro he
      exact h (by simp [mapKeys, he])
    rw [mapLookup, if_neg hne]
    exact ih fun hm => h (by simp [mapKeys] at hm ⊢; exact Or.inr hm)

theorem mapLookup_erase_ne {m : List (SignalKey × Nat)} {k k' : SignalKey}
    (h : k' ≠ k) : mapLookup (mapErase m k) k' = mapLookup m k' := by
  induction m with
  | nil => rfl
  | cons e rest ih =>
    by_cases he : k = e.1
    · rw [mapErase, if_pos he, mapLookup, if_neg (he ▸ h)]
    · rw [mapErase, if_neg he, mapLookup, mapLookup]
      by_cases h2 : k' = e.1
      · rw [if_pos h2, if_pos h2]
      · rw [if_neg h2, if_neg h2, ih]

theorem mapErase_sublist (m : List (SignalKey × Nat)) (k : SignalKey) :
    (mapErase m k).Sublist m := by
  induction m with
  | nil => exact List.Sublist.refl []
  | cons e rest ih =>
    by_cases he : k = e.1
    · rw [mapErase, if_pos he]
      exact List.sublist_cons_self e rest
    · rw [mapErase, if_neg he]
      exact ih.cons₂ e

theorem mapLookup_erase_self {m : List (SignalKey × Nat)} {k : SignalKey}
    (hnd : (mapKeys m).Nodup) : mapLookup (mapErase m k) k = none := by
  induction m with
  | nil => rfl
  | cons e rest ih =>
    rw [mapKeys, List.map_cons, List.nodup_cons] at hnd
    by_cases he : k = e.1
    · rw [mapErase, if_pos he]
      exact mapLookup_eq_none_of_not_mem (he ▸ hnd.1)
    · rw [mapErase, if_neg he, mapLookup, if_neg he]
      exact ih hnd.2

theorem mapLookup_map_adjust (m : List (SignalKey × Nat)) (p : Nat) (k : SignalKey) :
    mapLookup (m.map (fun x => if x.2 > p then (x.1, x.2 - 1) else x)) k =
      (mapLookup m k).map (fun v => if v > p then v - 1 else v) := by
  induction m with
  | nil => rfl
  | cons e rest ih =>
    by_cases hv : e.2 > p
    · simp only [List.map_cons, if_pos hv, mapLookup]
      by_cases h2 : k = e.1
      · rw [if_pos h2, if_pos h2]
        simp [hv]
      · rw [if_neg h2, if_neg h2, ih]
    · simp only [List.map_cons, if_neg hv, mapLookup]
      by_cases h2 : k = e.1
      · rw [if_pos h2, if_pos h2]
        simp [hv]
      · rw [if_neg h2, if_neg h2, ih]

theorem mapKeys_map_adjust (m : List (SignalKey × Nat)) (p : Nat) :
    mapKeys (m.map (fun x => if x.2 > p then (x.1, x.2 - 1) else x)) = mapKeys m := by
  induction m with
  | nil => rfl
  | cons e rest ih =>
    by_cases hv : e.2 > p
    · simp only [mapKeys, List.map_cons, if_pos hv] at ih ⊢
      rw [ih]
    · simp only [mapKeys, List.map_cons, if_neg hv] at ih ⊢
      rw [ih]

theorem mapVals_erase {m : List (SignalKey × Nat)} {k : SignalKey} {v : Nat}
    (h : mapLookup m k = some v) : mapVals m = v ::ₘ mapVals (mapErase m k) := by
  induction m with
  | nil => simp [mapLookup] at h
  | cons e rest ih =>
    by_cases he : k = e.1
    · rw [mapLookup, if_pos he] at h
      rw [mapErase, if_pos he, mapVals, List.map_cons]
      rw [Option.some_inj] at h
      rw [← h]
      rfl
    · rw [mapLookup, if_neg he] at h
      rw [mapErase, if_neg he, mapVals, List.map_cons]
      show (e.2 ::ₘ mapVals rest) = v ::ₘ mapVals ((e.1, e.2) :: mapErase rest k)
      have : mapVals ((e.1, e.2) :: mapErase rest k) = e.2 ::ₘ mapVals (mapErase rest k) := rfl
      rw [this, ih h, Multiset.cons_swap]

theorem mapVals_map_adjust (m : List (SignalKey × Nat)) (p : Nat) :
    mapVals (m.map (fun x => if x.2 > p then (x.1, x.2 - 1) else x)) =
      (mapVals m).map (fun v => if v > p then v - 1 else v) := by
  induction m with
  | nil => rfl
  | cons e rest ih =>
    by_cases hv : e.2 > p
    · simp only [List.map_cons, if_pos hv]
      show (e.2 - 1) ::ₘ mapVals (rest.map _) =
        Multiset.map _ (e.2 ::ₘ mapVals rest)
      rw [Multiset.map_cons, if_pos hv, ih]
    · simp only [List.map_cons, if_neg hv]
      show e.2 ::ₘ mapVals (rest.map _) = Multiset.map _ (e.2 ::ₘ mapVals rest)
      rw [Multiset.map_cons, if_neg hv, ih]

theorem mapLookup_mem_vals {m : List (SignalKey × Nat)} {k : SignalKey} {v : Nat}
    (h : mapLookup m k = some v) : v ∈ mapVals m := by
  induction m with
  | nil => simp [mapLookup] at h
  | cons e rest ih =>
    by_cases he : k = e.1
    · rw [mapLookup, if_pos he, Option.some_inj] at h
      rw [← h]
      exact Multiset.mem_cons_self e.2 (mapVals rest)
    · rw [mapLookup, if_neg he] at h
      exact Multiset.mem_cons_of_mem (ih h)

theorem mapErase_length {m : List (SignalKey × Nat)} {k : SignalKey} {v : Nat}
    (h : mapLookup m k = some v) : (mapErase m k).length + 1 = m.length := by
  induction m with
  | nil => simp [mapLookup] at h
  | cons e rest ih =>
    by_cases he : k = e.1
    · rw [mapErase, if_pos he, List.length_cons]
    · rw [mapLookup, if_neg he] at h
      rw [mapErase, if_neg he, List.length_cons, List.length_cons, ih h]

theorem range_erase_adjust :
    ∀ n p : Nat, p ≤ n →
      ((Multiset.range (n + 1)).erase p).map (fun v => if v > p then v - 1 else v) =
        Multiset.range n := by
  intro n
  induction n with
  | zero =>
    intro p hp
    interval_cases p
    simp [Multiset.range_succ]
  | succ n ih =>
    intro p hp
    rw [Multiset.range_succ (n + 1)]
    by_cases hpn : p = n + 1
    · subst hpn
      rw [Multiset.erase_cons_head]
      have : ∀ v ∈ Multiset.range (n + 1), (if v > n + 1 then v - 1 else v) = v := by
        intro v hv
        rw [Multiset.mem_range] at hv
        rw [if_neg (by omega)]
      rw [Multiset.map_congr rfl this, Multiset.map_id']
    · have hple : p ≤ n := by omega
      rw [Multiset.erase_cons_tail _ (by omega), Multiset.map_cons, ih p hple,
        if_pos (by omega)]
      rw [Multiset.range_succ n]
      congr 1

theorem mapSet_lookup_self (m : List (SignalKey × Nat)) (k : SignalKey) (v : Nat) :
    mapLookup (mapSet m k v) k = some v := by
  induction m with
  | nil => simp [mapSet, mapLookup]
  | cons e rest ih =>
    by_cases h1 : SignalKey.lt k e.1
    · rw [mapSet, if_pos h1, mapLookup, if_pos rfl]
    · by_cases h2 : k = e.1
      · rw [mapSet, if_neg h1, if_pos h2, mapLookup, if_pos rfl]
      · rw [mapSet, if_neg h1, if_neg h2, mapLookup, if_neg h2, ih]

theorem mapSet_lookup_ne {m : List (SignalKey × Nat)} {k k' : SignalKey} {v : Nat}
    (h : k' ≠ k) : mapLookup (mapSet m k v) k' = mapLookup m k' := by
  induction m with
  | nil => simp [mapSet, mapLookup, if_neg h]
  | cons e rest ih =>
    by_cases h1 : SignalKey.lt k e.1
    · rw [mapSet, if_pos h1, mapLookup, if_neg h]
    · by_cases h2 : k = e.1
      · rw [mapSet, if_neg h1, if_pos h2, mapLookup, if_neg h, mapLookup,
          if_neg (h2 ▸ h)]
      · rw [mapSet, if_neg h1, if_neg h2, mapLookup, mapLookup]
        by_cases h3 : k' = e.1
        · rw [if_pos h3, if_pos h3]
        · rw [if_neg h3, if_neg h3, ih]

theorem mapSet_keys_perm {m : List (SignalKey × Nat)} {k : SignalKey} (v : Nat)
    (h : k ∉ mapKeys m) : (mapKeys (mapSet m k v)).Perm (k :: mapKeys m) := by
  induction m with
  | nil => exact List.Perm.refl _
  | cons e rest ih =>
    have hke : k ≠ e.1 := fun he => h (by simp [mapKeys, he])
    have hrest : k ∉ mapKeys rest := fun hm => h (by simp [mapKeys] at hm ⊢; exact Or.inr hm)
    by_cases h1 : SignalKey.lt k e.1
    · rw [mapSet, if_pos h1]
      exact List.Perm.refl _
    · rw [mapSet, if_neg h1, if_neg hke]
      show (e.1 :: mapKeys (mapSet rest k v)).Perm (k :: e.1 :: mapKeys rest)
      exact ((ih hrest).cons e.1).trans (List.Perm.swap k e.1 (mapKeys rest))

theorem mapSet_vals {m : List (SignalKey × Nat)} {k : SignalKey} (v : Nat)
    (h : k ∉ mapKeys m) : mapVals (mapSet m k v) = v ::ₘ mapVals m := by
  induction m with
  | nil => rfl
  | cons e rest ih =>
    have hke : k ≠ e.1 := fun he => h (by simp [mapKeys, he])
    have hrest : k ∉ mapKeys rest := fun hm => h (by simp [mapKeys] at hm ⊢; exact Or.inr hm)
    by_cases h1 : SignalKey.lt k e.1
    · rw [mapSet, if_pos h1]
      rfl
    · rw [mapSet, if_neg h1, if_neg hke]
      show e.2 ::ₘ mapVals (mapSet rest k v) = v ::ₘ e.2 ::ₘ mapVals rest
      rw [ih hrest, Multiset.cons_swap]

theorem remove_eq {s : Signal α ρ} {k : SignalKey} {p : Nat}
    (hk : mapLookup s.link_key_map k = some p) :
    s.Remove k = some { s with
      actions := FunctionSet.Remove s.actions p,
      link_key_map := (mapErase s.link_key_map k).map
        (fun x => if x.2 > p then (x.1, x.2 - 1) else x) } := by
  rw [Signal.Remove, hk]

theorem lookup_lt_length {s : Signal α ρ} {k : SignalKey} {p : Nat}
    (hG : s.Good) (hk : mapLookup s.link_key_map k = some p) :
    p < s.actions.length := by
  have h := mapLookup_mem_vals hk
  rw [hG.2, Multiset.mem_range] at h
  exact h

theorem remove_good {s : Signal α ρ} {k : SignalKey} {p : Nat} {s' : Signal α ρ}
    (hG : s.Good) (hk : mapLookup s.link_key_map k = some p)
    (hr : s.Remove k = some s') : s'.Good := by
  rw [remove_eq hk, Option.some_inj] at hr
  obtain ⟨hnd, hvals⟩ := hG
  have hp : p < s.actions.length := lookup_lt_length ⟨hnd, hvals⟩ hk
  rw [← hr]
  constructor
  · show (mapKeys ((mapErase s.link_key_map k).map _)).Nodup
    rw [mapKeys_map_adjust]
    exact ((mapErase_sublist s.link_key_map k).map Prod.fst).nodup hnd
  · show mapVals ((mapErase s.link_key_map k).map _) =
      Multiset.range (FunctionSet.Remove s.actions p).length
    rw [mapVals_map_adjust]
    have h2 : mapVals (mapErase s.link_key_map k) =
        (Multiset.range s.actions.length).erase p := by
      rw [← hvals, mapVals_erase hk, Multiset.erase_cons_head]
    rw [h2]
    obtain ⟨n, hn⟩ : ∃ n, s.actions.length = n + 1 := ⟨s.actions.length - 1, by omega⟩
    have hlen : (FunctionSet.Remove s.actions p).length = n := by
      rw [FunctionSet.Remove]
      have := List.length_eraseIdx_add_one (l := s.actions) (i := p) hp
      omega
    rw [hn, hlen]
    exact range_erase_adjust n p (by omega)

/-- C3: when `key` is registered at position `p`, `Remove(key)` removes the
handler at position `p` (the remaining handlers keeping their original
relative order), erases the key, and decrements the stored position of
every other key exactly when it exceeded `p`; afterwards the key map is
again dense and injective over the shrunken handler list. -/
theorem remove_compacts_positions (s : Signal α ρ) (k : SignalKey) (p : Nat)
    (hG : s.Good) (hk : mapLookup s.link_key_map k = some p) :
    s.RemoveSpec k p := by
  have hp : p < s.actions.length := lookup_lt_length hG hk
  refine ⟨_, remove_eq hk, rfl, ?_, ?_, ?_, ?_, ?_⟩
  · show (FunctionSet.Remove s.actions p).Sublist s.actions
    rw [FunctionSet.Remove]
    exact List.eraseIdx_sublist s.actions p
  · show (FunctionSet.Remove s.actions p).length + 1 = s.actions.length
    rw [FunctionSet.Remove]
    exact List.length_eraseIdx_add_one hp
  · show mapLookup ((mapErase s.link_key_map k).map _) k = none
    rw [mapLookup_map_adjust, mapLookup_erase_self hG.1]
    rfl
  · intro k' v hne hk'
    show mapLookup ((mapErase s.link_key_map k).map _) k' = _
    rw [mapLookup_map_adjust, mapLookup_erase_ne hne, hk']
    rfl
  · exact remove_good hG hk (remove_eq hk)

theorem remove_compacts_positions_witness :
    exC3.RemoveSpec { signal_id := 2, key_id := 0 } 1 :=
  remove_compacts_positions exC3 { signal_id := 2, key_id := 0 } 1
    (by decide) (by decide)

theorem addAction_unfold (s : Signal α ρ) (f : α → ρ) :
    s.AddAction f = (SignalKey.create s.signal_id ((s.next_link_id + 1) % u32),
      { s with next_link_id := (s.next_link_id + 1) % u32,
               link_key_map := mapSet s.link_key_map
                 (SignalKey.create s.signal_id ((s.next_link_id + 1) % u32))
                 s.actions.length,
               actions := s.actions ++ [f] }) :=
  rfl

/-- C10: attaching an exact-signature handler appends it at the end — the
returned key is mapped to the handler count before the call, the handler
count grows by exactly one, previously registered keys keep their
positions (their invocation ranks), the new handler is invoked last, and
the key map stays dense and injective.  The two hypotheses besides the
invariant say that the stored keys were produced by the channel counter
and that the `uint32_t` counter does not wrap on this call. -/
theorem addaction_appends_last (s : Signal α ρ) (f : α → ρ) (hG : s.Good)
    (hbound : ∀ e ∈ s.link_key_map, e.1.signal_id ≤ s.next_link_id)
    (hov : s.next_link_id + 1 < u32) : s.AddSpec f := by
  have hnl : (s.next_link_id + 1) % u32 = s.next_link_id + 1 := Nat.mod_eq_of_lt hov
  have hfresh : SignalKey.create s.signal_id ((s.next_link_id + 1) % u32) ∉
      mapKeys s.link_key_map := by
    intro hmem
    rw [mapKeys, List.mem_map] at hmem
    obtain ⟨e, he, heq⟩ := hmem
    have hb := hbound e he
    have hsid : (SignalKey.create s.signal_id ((s.next_link_id + 1) % u32)).signal_id =
        s.next_link_id + 1 := by
      rw [SignalKey.create, hnl, Nat.mod_eq_of_lt hov]
    rw [heq, hsid] at hb
    omega
  refine ⟨?_, ?_, ?_, ?_, ?_⟩
  · rw [addAction_unfold]
    exact mapSet_lookup_self _ _ _
  · rw [addAction_unfold]
  · rw [addAction_unfold]
    simp
  · intro k' hne
    rw [addAction_unfold] at hne ⊢
    exact mapSet_lookup_ne hne
  · rw [addAction_unfold]
    constructor
    · show (mapKeys (mapSet s.link_key_map _ s.actions.length)).Nodup
      exact (mapSet_keys_perm s.actions.length hfresh).nodup_iff.2
        (List.nodup_cons.2 ⟨hfresh, hG.1⟩)
    · show mapVals (mapSet s.link_key_map _ s.actions.length) =
        Multiset.range (s.actions ++ [f]).length
      rw [mapSet_vals s.actions.length hfresh, hG.2]
      rw [List.length_append, List.length_singleton, Multiset.range_succ]

theorem addaction_appends_last_witness : exC10.AddSpec exC10f :=
  addaction_appends_last exC10 exC10f (by decide) (by decide) (by decide)

theorem clearFuel_spec :
    ∀ (fuel : Nat) (s : Signal α ρ), s.Good → s.link_key_map.length ≤ fuel →
      (Signal.ClearFuel fuel s).link_key_map = [] ∧
      (Signal.ClearFuel fuel s).actions = [] ∧
      Signal.ClearFuel fuel s = s.foldRemove (mapKeys s.link_key_map) := by
  intro fuel
  induction fuel with
  | zero =>
    intro s hG hlen
    have hmap : s.link_key_map = [] := List.length_eq_zero.1 (Nat.le_zero.1 hlen)
    have hact : s.actions = [] := by
      have hvals := hG.2
      rw [hmap] at hvals
      have hcard := congrArg Multiset.card hvals
      rw [Multiset.card_range] at hcard
      have : s.actions.length = 0 := by
        rw [← hcard]
        rfl
      exact List.length_eq_zero.1 this
    exact ⟨by rw [Signal.ClearFuel, hmap], by rw [Signal.ClearFuel, hact],
      by rw [hmap]; rfl⟩
  | succ fuel ih =>
    intro s hG hlen
    cases hmap : s.link_key_map with
    | nil =>
      have hact : s.actions = [] := by
        have hvals := hG.2
        rw [hmap] at hvals
        have hcard := congrArg Multiset.card hvals
        rw [Multiset.card_range] at hcard
        have : s.actions.length = 0 := by
          rw [← hcard]
          rfl
        exact List.length_eq_zero.1 this
      have hCF : Signal.ClearFuel (fuel + 1) s = s := by
        rw [Signal.ClearFuel, hmap]
      refine ⟨?_, ?_, ?_⟩
      · rw [hCF, hmap]
      · rw [hCF, hact]
      · rw [hCF]
        rfl
    | cons e tail =>
      have hk : mapLookup s.link_key_map e.1 = some e.2 := by
        rw [hmap, mapLookup, if_pos rfl]
      set s1 : Signal α ρ := { s with
        actions := FunctionSet.Remove s.actions e.2,
        link_key_map := (mapErase s.link_key_map e.1).map
          (fun x => if x.2 > e.2 then (x.1, x.2 - 1) else x) } with hs1
      have hrem : s.Remove e.1 = some s1 := remove_eq hk
      have hgood1 : s1.Good := remove_good hG hk hrem
      have hkeys1 : mapKeys s1.link_key_map = mapKeys tail := by
        rw [hs1]
        show mapKeys ((mapErase s.link_key_map e.1).map _) = mapKeys tail
        rw [mapKeys_map_adjust, hmap, mapErase, if_pos rfl]
      have hlen1 : s1.link_key_map.length ≤ fuel := by
        have h1 := mapErase_length hk
        have h2 : s1.link_key_map.length = (mapErase s.link_key_map e.1).length := by
          rw [hs1]
          exact List.length_map _ _
        omega
      obtain ⟨ih1, ih2, ih3⟩ := ih s1 hgood1 hlen1
      have hstep : Signal.ClearFuel (fuel + 1) s = Signal.ClearFuel fuel s1 := by
        rw [Signal.ClearFuel, hmap]
        show (match s.Remove e.1 with
          | some s2 => Signal.ClearFuel fuel s2
          | none => s) = Signal.ClearFuel fuel s1
        rw [hrem]
      have hfold : s.foldRemove (mapKeys (e :: tail)) = s1.foldRemove (mapKeys tail) := by
        have hck : mapKeys (e :: tail) = e.1 :: mapKeys tail := rfl
        rw [hck, Signal.foldRemove, List.foldl_cons, hrem]
        rfl
      refine ⟨by rw [hstep]; exact ih1, by rw [hstep]; exact ih2, ?_⟩
      rw [hstep, ih3, hkeys1]
      exact hfold.symm

/-- C8: `Clear()` repeatedly removes the first remaining key via the
per-key `Remove` path until none remain; afterwards the key map is empty
and the handler count is zero, and the resulting state is exactly the
state reached by calling `Remove` on each registered key individually. -/
theorem clear_removes_all_keys (s : Signal α ρ) (hG : s.Good) :
    s.Clear.link_key_map = [] ∧ s.Clear.actions = [] ∧
    s.Clear = s.foldRemove (mapKeys s.link_key_map) := by
  rw [Signal.Clear]
  exact clearFuel_spec s.link_key_map.length s hG (le_refl _)

theorem clear_removes_all_keys_witness :
    exC8.Clear.link_key_map = [] ∧ exC8.Clear.actions = [] ∧
    exC8.Clear = exC8.foldRemove (mapKeys exC8.link_key_map) :=
  clear_removes_all_keys exC8 (by decide)

end Emp
